import Mathlib

/-!
Verification development for the intent-classifier confidence engine
(`intent_confidence.py`, class `IntentConfidenceMapper`).

The Python code is shallowly embedded: strings are Lean `String`s
(ASCII model of Python's `str.lower`/`\s`), Python `float` arithmetic is
modelled by exact rationals `ℚ`, Python `set`s by `Finset String`,
Python `dict`s by association lists with insert-or-replace update, and
`difflib.SequenceMatcher` (with `isjunk=None`, `autojunk=True`) by an
explicit implementation of its matching-block algorithm.
All functions are total; Python code paths that cannot raise are
mirrored by totality of the Lean definitions.
-/

/-- The characters Python's `str.split()` / `\s` treat as whitespace (ASCII). -/
def isPySpace (c : Char) : Bool :=
  c = ' ' || c = '\t' || c = '\n' || c = '\r' || c = '\x0b' || c = '\x0c'

/-- Characters kept by the substitution `re.sub(r'[^a-z0-9\s-]', ' ', text)`. -/
def keepChar (c : Char) : Bool :=
  ('a' ≤ c && c ≤ 'z') || ('0' ≤ c && c ≤ '9') || isPySpace c || c = '-'

/-- `str.lower()` (ASCII model). -/
def pyLower (s : String) : String := ⟨s.data.map Char.toLower⟩

/-- `str.strip()` (ASCII model): drop leading and trailing whitespace. -/
def pyStrip (s : String) : String :=
  ⟨((s.data.dropWhile (isPySpace ·)).reverse.dropWhile (isPySpace ·)).reverse⟩

/-- Helper for `pySplit`: accumulate the current word (reversed) while
scanning the character list. -/
def splitWordsAux : List Char → List Char → List String
  | [], acc => if acc.isEmpty then [] else [⟨acc.reverse⟩]
  | c :: rest, acc =>
    if isPySpace c then
      if acc.isEmpty then splitWordsAux rest []
      else (⟨acc.reverse⟩ : String) :: splitWordsAux rest []
    else
      splitWordsAux rest (c :: acc)

/-- Python's no-argument `str.split()`: split on whitespace runs, no empties. -/
def pySplit (s : String) : List String := splitWordsAux s.data []

/-- The stop-word set of `_extract_keywords` (interrogatives deliberately kept). -/
def stopWords : List String :=
  ["the", "a", "an", "and", "or", "but", "in", "on", "at", "to", "for",
   "of", "with", "by", "from", "is", "are", "was", "were", "be", "been",
   "being", "have", "has", "had", "do", "does", "did", "will", "would",
   "should", "could", "may", "might", "must", "can", "this", "that",
   "these", "those", "i", "you", "he", "she", "it", "we", "they"]

/-- `word[-1] == word[-2] and word[-1] not in 'aeiou'` guarded by `len >= 2`:
the doubled-consonant correction of `_simple_stem`. -/
def endsDoubledConsonant (w : List Char) : Bool :=
  match w.reverse with
  | c1 :: c2 :: _ => c1 = c2 && !(c1 = 'a' || c1 = 'e' || c1 = 'i' || c1 = 'o' || c1 = 'u')
  | _ => false

/-- `suffix` test on character lists (Python `str.endswith`). -/
def endsWithCh (w suf : List Char) : Bool := suf.isSuffixOf w

/-- The suffix-stripping steps of `_simple_stem`, applied to a word of
length > 3: `-ing` (with doubled-consonant fix), then `-ed` (same fix),
then the `ies`/`es`/`s` plural chain, then the `ce` normalization. -/
def stemSteps (w : List Char) : List Char :=
  -- Progressive/gerund (-ing) - done FIRST, before plural
  let w1 :=
    if endsWithCh w ['i', 'n', 'g'] && decide (5 < w.length) then
      let t := w.take (w.length - 3)
      if endsDoubledConsonant t then t.take (t.length - 1) else t
    else w
  -- Past tense (-ed)
  let w2 :=
    if endsWithCh w1 ['e', 'd'] && decide (4 < w1.length) then
      let t := w1.take (w1.length - 2)
      if endsDoubledConsonant t then t.take (t.length - 1) else t
    else w1
  -- Plural forms
  let w3 :=
    if endsWithCh w2 ['i', 'e', 's'] && decide (4 < w2.length) then
      w2.take (w2.length - 3) ++ ['y']
    else if endsWithCh w2 ['e', 's'] && decide (3 < w2.length) then
      w2.take (w2.length - 2)
    else if endsWithCh w2 ['s'] && !endsWithCh w2 ['s', 's'] && decide (3 < w2.length) then
      w2.take (w2.length - 1)
    else w2
  -- Additional normalization: ce -> c (service -> servic)
  if endsWithCh w3 ['c', 'e'] && decide (4 < w3.length) then
    w3.take (w3.length - 1)
  else w3

/-- `_simple_stem`: words of length ≤ 3 pass through unchanged (the
`original = word` variable of the Python code is dead and omitted). -/
def simple_stem (word : String) : String :=
  if word.length ≤ 3 then word else ⟨stemSteps word.data⟩

/-- `_extract_keywords`: lowercase, replace characters outside
`[a-z0-9\s-]` with spaces, split, drop stop words and words of
length ≤ 2, stem each survivor.  Returns the list in order (the Python
function returns a `list`; call sites take `set(...)` of it). -/
def extract_keywords (text : String) : List String :=
  let lowered := pyLower text
  let cleaned : String := ⟨lowered.data.map (fun c => if keepChar c then c else ' ')⟩
  let words := pySplit cleaned
  (words.filter (fun w => !stopWords.contains w && decide (2 < w.length))).map simple_stem

example : simple_stem "running" = "run" := by decide
example : simple_stem "services" = "servic" := by decide
example : simple_stem "failing" = "fail" := by decide
example : simple_stem "is" = "is" := by decide
example : extract_keywords "Run now!" = ["run", "now"] := by decide

/-!
### `difflib.SequenceMatcher(None, a, b).ratio()`

`_calculate_text_similarity` delegates to the standard library's
`SequenceMatcher`.  We embed its algorithm: `__chain_b` marks "popular"
characters of `b` as junk when `len(b) >= 200` (autojunk),
`find_longest_match` runs the row dynamic program over non-junk
positions of `b` and then the four extension loops, and
`get_matching_blocks` recursively splits around the longest match; the
ratio is `2*M / (len(a)+len(b))`, or `1.0` for two empty strings.
-/

/-- Autojunk of `SequenceMatcher.__chain_b`: for `len(b) >= 200`, the
characters occurring more than `len(b) // 100 + 1` times in `b`. -/
def popularChars (b : List Char) : List Char :=
  if b.length < 200 then []
  else (b.dedup).filter (fun c => b.count c > b.length / 100 + 1)

/-- Inner loop of `find_longest_match` at row `i`: iterate over the
positions `j` of `b` (ascending, already restricted to the window and to
non-junk characters equal to `a[i]`), threading the previous row's
run-length map `j2len` and building the new row `acc`.
`k = j2len.get(j-1, 0) + 1`; best is updated only on strict improvement. -/
def flmInnerLoop (i : Nat) (j2len : Nat → Nat) :
    List Nat → (Nat × Nat × Nat) → (Nat → Nat) → ((Nat × Nat × Nat) × (Nat → Nat))
  | [], best, acc => (best, acc)
  | j :: js, best, acc =>
    let k := (if j = 0 then 0 else j2len (j - 1)) + 1
    let best' := if k > best.2.2 then (i + 1 - k, j + 1 - k, k) else best
    flmInnerLoop i j2len js best' (fun x => if x = j then k else acc x)

/-- Outer loop of `find_longest_match`: rows `i` of the `a`-window in
ascending order; each row scans the `b`-window positions holding the
character `a[i]`, skipping junk (popular) characters. -/
def flmOuterLoop (a b : List Char) (pop : List Char) (blo bhi : Nat) :
    List Nat → (Nat → Nat) → (Nat × Nat × Nat) → (Nat × Nat × Nat)
  | [], _, best => best
  | i :: rest, j2len, best =>
    let ai := a.getD i ' '
    let js := (List.range' blo (bhi - blo)).filter
      (fun j => b.getD j ' ' = ai && !pop.contains (b.getD j ' '))
    let (best', newRow) := flmInnerLoop i j2len js best (fun _ => 0)
    flmOuterLoop a b pop blo bhi rest newRow best'

/-- Body of one of `find_longest_match`'s leftward extension `while`
loops: extend the block over characters of `b` satisfying `cond` while
the window bounds allow and the characters match.  Each step decreases
`besti` by one and the guard needs `alo < besti`, so `besti` itself is
enough fuel: fuel runs out only when the guard is already false. -/
def extLeftAux (a b : List Char) (cond : Char → Bool) (alo blo : Nat) :
    Nat → Nat × Nat × Nat → Nat × Nat × Nat
  | 0, best => best
  | fuel + 1, (besti, bestj, bestsize) =>
    if alo < besti && blo < bestj && cond (b.getD (bestj - 1) ' ') &&
        a.getD (besti - 1) ' ' = b.getD (bestj - 1) ' ' then
      extLeftAux a b cond alo blo fuel (besti - 1, bestj - 1, bestsize + 1)
    else (besti, bestj, bestsize)

/-- Leftward extension `while` loop of `find_longest_match`. -/
def extLeft (a b : List Char) (cond : Char → Bool) (alo blo : Nat)
    (best : Nat × Nat × Nat) : Nat × Nat × Nat :=
  extLeftAux a b cond alo blo best.1 best

/-- Body of one of `find_longest_match`'s rightward extension `while`
loops.  Each step increases `bestsize` by one and the guard needs
`besti + bestsize < ahi`, so `ahi - (besti + bestsize)` is enough fuel. -/
def extRightAux (a b : List Char) (cond : Char → Bool) (ahi bhi : Nat) :
    Nat → Nat × Nat × Nat → Nat × Nat × Nat
  | 0, best => best
  | fuel + 1, (besti, bestj, bestsize) =>
    if besti + bestsize < ahi && bestj + bestsize < bhi &&
        cond (b.getD (bestj + bestsize) ' ') &&
        a.getD (besti + bestsize) ' ' = b.getD (bestj + bestsize) ' ' then
      extRightAux a b cond ahi bhi fuel (besti, bestj, bestsize + 1)
    else (besti, bestj, bestsize)

/-- Rightward extension `while` loop of `find_longest_match`. -/
def extRight (a b : List Char) (cond : Char → Bool) (ahi bhi : Nat)
    (best : Nat × Nat × Nat) : Nat × Nat × Nat :=
  extRightAux a b cond ahi bhi (ahi - (best.1 + best.2.2)) best

/-- `find_longest_match` over the window `[alo,ahi) × [blo,bhi)`:
the row dynamic program, then extension by non-junk matches on both
ends, then extension by junk (popular) matches on both ends. -/
def find_longest_match (a b pop : List Char) (alo ahi blo bhi : Nat) :
    Nat × Nat × Nat :=
  let best := flmOuterLoop a b pop blo bhi
    (List.range' alo (ahi - alo)) (fun _ => 0) (alo, blo, 0)
  let best := extLeft a b (fun c => !pop.contains c) alo blo best
  let best := extRight a b (fun c => !pop.contains c) ahi bhi best
  let best := extLeft a b (fun c => pop.contains c) alo blo best
  extRight a b (fun c => pop.contains c) ahi bhi best

/-- Total size of the matching blocks of `get_matching_blocks` on the
window `[alo,ahi) × [blo,bhi)`: recursively split around the longest
match.  `fuel` is a standard termination device; the `a`-window shrinks
strictly at each recursive call, so `a.length + 1` fuel is always
enough at the top level. -/
def matchingTotal (a b pop : List Char) :
    Nat → Nat → Nat → Nat → Nat → Nat
  | 0, _, _, _, _ => 0
  | fuel + 1, alo, ahi, blo, bhi =>
    let m := find_longest_match a b pop alo ahi blo bhi
    if m.2.2 = 0 then 0
    else matchingTotal a b pop fuel alo m.1 blo m.2.1
         + m.2.2
         + matchingTotal a b pop fuel (m.1 + m.2.2) ahi (m.2.1 + m.2.2) bhi

/-- `SequenceMatcher(None, a, b).ratio()`: `2*M / (len(a)+len(b))`,
and `1.0` when both strings are empty (difflib's `_calculate_ratio`). -/
def sequence_ratio (a b : List Char) : ℚ :=
  let pop := popularChars b
  let M := matchingTotal a b pop (a.length + 1) 0 a.length 0 b.length
  if a.length + b.length = 0 then 1
  else (2 * M : ℚ) / ((a.length : ℚ) + (b.length : ℚ))

example : sequence_ratio "abcd".data "bcde".data = 2 * 3 / 8 := by
  with_unfolding_all decide
example : sequence_ratio "run now".data "run now".data = 1 := by
  with_unfolding_all decide
example : sequence_ratio "".data "".data = 1 := by with_unfolding_all decide

/-!
### Data model

`intent_categories` (parsed `intent_categories.yaml`) is a dict from
category name to a category record that may or may not carry an
`intents` dict; `enrichment_rules` (parsed `enrichment_rules.yaml`) is a
dict from intent name to the list of intents it enriches.  Python dicts
are modelled by association lists: lookup (`d.get(k, default)`) takes
the first matching key, and dict update inserts or replaces in place.
-/

/-- One intent of the catalog: `intent_data.get('description', '')` and
`intent_data.get('examples', [])` are modelled by optional fields with
the same defaults applied at use sites. -/
structure IntentData where
  description : Option String
  examples : Option (List String)
  deriving DecidableEq, Repr

/-- One category record; `intents` is present iff `'intents' in category_data`. -/
structure CategoryData where
  intents : Option (List (String × IntentData))
  deriving DecidableEq, Repr

/-- `dict.get(k, default)`: first value bound to `k`, else the default. -/
def dictGetD {β : Type} (l : List (String × β)) (k : String) (dflt : β) : β :=
  match l.lookup k with
  | some v => v
  | none => dflt

/-- Python `d[k] = v` on a dict: replace the value in place if the key
exists (keys keep their original position), else append. -/
def dictInsert {β : Type} : List (String × β) → String → β → List (String × β)
  | [], k, v => [(k, v)]
  | (k', v') :: rest, k, v =>
    if k' = k then (k', v) :: rest else (k', v') :: dictInsert rest k v

/-- The `IntentConfidenceMapper` constructor state: the two parsed
configuration dicts and the two scoring weights (defaults 0.4 / 0.6). -/
structure IntentConfidenceMapper where
  intent_categories : List (String × CategoryData)
  enrichment_rules : List (String × List String)
  keyword_weight : ℚ := 0.4
  similarity_weight : ℚ := 0.6

namespace IntentConfidenceMapper

/-- `_build_valid_intents`: the set of all intent names across categories. -/
def all_valid_intents (m : IntentConfidenceMapper) : Finset String :=
  m.intent_categories.foldl
    (fun acc cat =>
      match cat.2.intents with
      | some ints => acc ∪ (ints.map Prod.fst).toFinset
      | none => acc)
    ∅

/-- `_build_intent_keywords`: per intent, the keywords extracted from its
description and all its examples; Python stores `list(set(keywords))`,
and every use site takes `set(...)` again, so the value is a `Finset`. -/
def intent_keywords (m : IntentConfidenceMapper) : List (String × Finset String) :=
  m.intent_categories.foldl
    (fun acc cat =>
      match cat.2.intents with
      | some ints =>
        ints.foldl
          (fun acc2 intentPair =>
            let desc := intentPair.2.description.getD ""
            let exs := intentPair.2.examples.getD []
            let kws := extract_keywords desc ++ exs.foldl (fun l e => l ++ extract_keywords e) []
            dictInsert acc2 intentPair.1 kws.toFinset)
          acc
      | none => acc)
    []

/-- `_build_intent_examples`: per intent, its example list. -/
def intent_examples (m : IntentConfidenceMapper) : List (String × List String) :=
  m.intent_categories.foldl
    (fun acc cat =>
      match cat.2.intents with
      | some ints =>
        ints.foldl
          (fun acc2 intentPair => dictInsert acc2 intentPair.1 (intentPair.2.examples.getD []))
          acc
      | none => acc)
    []

/-- `self.intent_keywords.get(intent, [])`, as a set (use sites apply `set`). -/
def keywordsOf (m : IntentConfidenceMapper) (intent : String) : Finset String :=
  dictGetD m.intent_keywords intent ∅

/-- `self.intent_examples.get(intent, [])`. -/
def examplesOf (m : IntentConfidenceMapper) (intent : String) : List String :=
  dictGetD m.intent_examples intent []

/-- `self.enrichment_rules.get(intent, [])`. -/
def rulesOf (m : IntentConfidenceMapper) (intent : String) : List String :=
  dictGetD m.enrichment_rules intent []

end IntentConfidenceMapper

/-- `_calculate_text_similarity`: lowercase and strip both texts, blend
the `SequenceMatcher` ratio with the keyword overlap
`|k1 ∩ k2| / max(|k1|, |k2|)` as `0.7·ratio + 0.3·overlap` when both
keyword sets are non-empty, else return the ratio alone.  (The Python
method is on the class but reads no instance state.) -/
def calculate_text_similarity (text1 text2 : String) : ℚ :=
  let t1 := pyStrip (pyLower text1)
  let t2 := pyStrip (pyLower text2)
  let similarity := sequence_ratio t1.data t2.data
  let keywords1 := (extract_keywords t1).toFinset
  let keywords2 := (extract_keywords t2).toFinset
  if keywords1 ≠ ∅ ∧ keywords2 ≠ ∅ then
    let keyword_overlap :=
      ((keywords1 ∩ keywords2).card : ℚ) / (max keywords1.card keywords2.card : ℚ)
    0.7 * similarity + 0.3 * keyword_overlap
  else similarity

/-!
### Reasoning and recommendation messages

The Python code appends formatted f-strings to `details['reasoning']`
and `result['recommendations']`.  The embedding replaces each distinct
message by an inductive constructor carrying the interpolated values,
so that "an explanatory entry is appended" is a provable membership.
-/

/-- The reasoning messages of the two confidence calculators. -/
inductive Reason where
  /-- `"Intent '{intent}' not found in configuration"` -/
  | intentNotFound (intent : String)
  /-- `"Intent '{intent}' is valid"` -/
  | intentValid (intent : String)
  /-- `"Matched {n}/{m} query keywords: ..."` -/
  | matchedKeywords (matched : Finset String) (queryCount : Nat)
  /-- `"Precision: .., Recall: .., F1: .."` -/
  | precisionRecallF1 (p r f1 : ℚ)
  /-- `"Query similar to example: '{best}' (score: ..)"` -/
  | similarExample (best : Option String) (score : ℚ)
  /-- `"HIGH confidence - strong match"` -/
  | highConfidence
  /-- `"MEDIUM confidence - acceptable match"` -/
  | mediumConfidence
  /-- `"LOW confidence - weak match"` -/
  | lowConfidence
  /-- `"VERY LOW confidence - questionable match"` -/
  | veryLowConfidence
  /-- `"Enrichment '{e}' not found in configuration"` -/
  | enrichmentNotFound (enrichment : String)
  /-- `"Direct enrichment rule: {p} → {e}"` -/
  | directRule (primary enrichment : String)
  /-- `"Secondary enrichment: {p} → {d} → {e}"` -/
  | secondaryRule (primary direct enrichment : String)
  /-- `"No enrichment rule found: {p} → {e}"` -/
  | noRulePath (primary enrichment : String)
  deriving DecidableEq

/-- The recommendation messages of `validate_classification_result`. -/
inductive Recommendation where
  /-- `"Low confidence for primary intent '{intent}' (score: ..). Consider reviewing."` -/
  | lowPrimary (intent : String) (score : ℚ)
  /-- `"Enrichment '{e}' has no valid link to primary intents. Possible error."` -/
  | unlinkedEnrichment (enrichment : String)
  /-- `"Overall confidence is HIGH. Classification looks good."` -/
  | overallHigh
  /-- `"Overall confidence is MEDIUM. Review recommended."` -/
  | overallMedium
  /-- `"Overall confidence is LOW. Manual review required."` -/
  | overallLow
  deriving DecidableEq

/-- The `details` dict of `calculate_primary_intent_confidence`.  Keys
that Python adds only on some paths (`keyword_precision`, ...) are
`Option` fields defaulting to `none`. -/
structure PrimaryDetails where
  intent : String
  is_valid : Bool
  keyword_match_score : ℚ
  example_similarity_score : ℚ
  final_score : ℚ
  matched_keywords : Finset String
  reasoning : List Reason
  keyword_precision : Option ℚ := none
  keyword_recall : Option ℚ := none
  query_keywords : Option (Finset String) := none
  intent_keywords : Option (Finset String) := none
  weights_used : Option (ℚ × ℚ) := none
  deriving DecidableEq

/-- The `details` dict of `calculate_enrichment_confidence`. -/
structure EnrichmentDetails where
  primary_intent : String
  enrichment_intent : String
  is_valid_enrichment : Bool
  is_valid_intent : Bool
  enrichment_depth : Nat
  final_score : ℚ
  reasoning : List Reason
  deriving DecidableEq

namespace IntentConfidenceMapper

/-- `calculate_primary_intent_confidence(query, intent)`: validity gate,
keyword F1 component, best-example similarity component, weighted blend. -/
def calculate_primary_intent_confidence (m : IntentConfidenceMapper)
    (query intent : String) : ℚ × PrimaryDetails :=
  let details0 : PrimaryDetails :=
    { intent := intent
      is_valid := false
      keyword_match_score := 0
      example_similarity_score := 0
      final_score := 0
      matched_keywords := ∅
      reasoning := [] }
  -- Check if intent is valid
  if intent ∉ m.all_valid_intents then
    (0, { details0 with reasoning := [.intentNotFound intent] })
  else
    let reasoning0 : List Reason := [.intentValid intent]
    -- Extract query keywords
    let query_keywords := (extract_keywords query).toFinset
    -- Calculate keyword match score using F1-score approach
    let intent_keywords := m.keywordsOf intent
    let kwPart :=
      if intent_keywords ≠ ∅ ∧ query_keywords ≠ ∅ then
        let matched_keywords := query_keywords ∩ intent_keywords
        -- Precision: what % of query keywords matched?
        let precision : ℚ :=
          if query_keywords ≠ ∅ then (matched_keywords.card : ℚ) / (query_keywords.card : ℚ) else 0
        -- Recall: what % of intent keywords were found?
        let recallScore : ℚ :=
          if intent_keywords ≠ ∅ then (matched_keywords.card : ℚ) / (intent_keywords.card : ℚ) else 0
        -- F1-score: harmonic mean of precision and recall
        let keyword_match_score : ℚ :=
          if precision + recallScore > 0 then
            2 * (precision * recallScore) / (precision + recallScore)
          else 0
        let reasoning1 :=
          if matched_keywords ≠ ∅ then
            [Reason.matchedKeywords matched_keywords query_keywords.card,
             Reason.precisionRecallF1 precision recallScore keyword_match_score]
          else []
        (keyword_match_score, matched_keywords, some precision, some recallScore,
         some query_keywords, some intent_keywords, reasoning1)
      else ((0 : ℚ), (∅ : Finset String), none, none, none, none, ([] : List Reason))
    -- Calculate example similarity score
    let examples := m.examplesOf intent
    let simPart :=
      if examples ≠ [] then
        let best := examples.foldl
          (fun (acc : ℚ × Option String) ex =>
            let similarity := calculate_text_similarity query ex
            if similarity > acc.1 then (similarity, some ex) else acc)
          (0, none)
        (best.1, if best.1 > 0.3 then [Reason.similarExample best.2 best.1] else [])
      else ((0 : ℚ), ([] : List Reason))
    -- Calculate final confidence score using configurable weights
    let final_score := m.keyword_weight * kwPart.1 + m.similarity_weight * simPart.1
    -- Determine confidence level
    let levelReason : Reason :=
      if final_score ≥ 0.7 then .highConfidence
      else if final_score ≥ 0.4 then .mediumConfidence
      else if final_score ≥ 0.2 then .lowConfidence
      else .veryLowConfidence
    (final_score,
     { intent := intent
       is_valid := true
       keyword_match_score := kwPart.1
       example_similarity_score := simPart.1
       final_score := final_score
       matched_keywords := kwPart.2.1
       keyword_precision := kwPart.2.2.1
       keyword_recall := kwPart.2.2.2.1
       query_keywords := kwPart.2.2.2.2.1
       intent_keywords := kwPart.2.2.2.2.2.1
       weights_used := some (m.keyword_weight, m.similarity_weight)
       reasoning := reasoning0 ++ kwPart.2.2.2.2.2.2 ++ simPart.2 ++ [levelReason] })

/-- `calculate_enrichment_confidence(primary_intent, enrichment_intent)`:
validity gate on the enrichment intent, then depth-1 / depth-2 lookup in
the enrichment rules, with fixed scores 1.0 / 0.8 / 0.0. -/
def calculate_enrichment_confidence (m : IntentConfidenceMapper)
    (primary_intent enrichment_intent : String) : ℚ × EnrichmentDetails :=
  let details0 : EnrichmentDetails :=
    { primary_intent := primary_intent
      enrichment_intent := enrichment_intent
      is_valid_enrichment := false
      is_valid_intent := false
      enrichment_depth := 0
      final_score := 0
      reasoning := [] }
  -- Check if enrichment intent exists in configuration
  if enrichment_intent ∉ m.all_valid_intents then
    (0, { details0 with reasoning := [.enrichmentNotFound enrichment_intent] })
  else
    -- Check if this enrichment is directly linked to primary intent
    let direct_enrichments := m.rulesOf primary_intent
    if enrichment_intent ∈ direct_enrichments then
      (1, { details0 with
              is_valid_intent := true
              is_valid_enrichment := true
              enrichment_depth := 1
              final_score := 1
              reasoning := [.directRule primary_intent enrichment_intent] })
    else
      -- Check if enrichment is secondary (enrichment of enrichment)
      match direct_enrichments.find? (fun d => (m.rulesOf d).contains enrichment_intent) with
      | some direct_enrichment =>
        (0.8, { details0 with
                  is_valid_intent := true
                  is_valid_enrichment := true
                  enrichment_depth := 2
                  final_score := 0.8
                  reasoning := [.secondaryRule primary_intent direct_enrichment enrichment_intent] })
      | none =>
        -- Not a valid enrichment for this primary intent
        (0, { details0 with
                is_valid_intent := true
                reasoning := [.noRulePath primary_intent enrichment_intent] })

end IntentConfidenceMapper

/-!
### `validate_classification_result`

The orchestrating method.  Its two `for` loops are decomposed into one
definition per accumulated quantity; each definition traverses the same
list in the same order as the Python loop, so the dict of per-intent
entries, the score lists, and the recommendation lists come out exactly
as the loop produces them.
-/

/-- One element of `enrichment_sources`. -/
structure EnrichmentSource where
  primary : String
  score : ℚ
  details : EnrichmentDetails
  deriving DecidableEq

/-- One value of the `result['enrichments']` dict. -/
structure EnrichmentEntry where
  sources : List EnrichmentSource
  max_confidence : ℚ
  deriving DecidableEq

/-- The result dict of `validate_classification_result`
(`primary_confidence` and `enrichment_confidence` are set at the end of
the Python function; they are plain fields here). -/
structure ValidationResult where
  query : String
  primary_intents : List (String × (ℚ × PrimaryDetails))
  enrichments : List (String × EnrichmentEntry)
  overall_confidence : ℚ
  recommendations : List Recommendation
  primary_confidence : ℚ
  enrichment_confidence : ℚ
  deriving DecidableEq

/-- Python's `max(...)` over a non-empty list (the `[]` case never
arises at the call site, which guards on non-emptiness). -/
def listMax : List ℚ → ℚ
  | [] => 0
  | x :: xs => xs.foldl max x

namespace IntentConfidenceMapper

/-- The `for primary in primary_intents` inner loop of the enrichment
pass: collect the sources with positive score, in primary order. -/
def enrichment_sources (m : IntentConfidenceMapper) (enrichment : String) :
    List String → List EnrichmentSource
  | [] => []
  | primary :: rest =>
    let sd := m.calculate_enrichment_confidence primary enrichment
    if sd.1 > 0 then
      ⟨primary, sd.1, sd.2⟩ :: enrichment_sources m enrichment rest
    else enrichment_sources m enrichment rest

/-- The `result['enrichments'][enrichment]` entry for one candidate. -/
def enrichmentEntryFor (m : IntentConfidenceMapper)
    (primary_intents : List String) (enrichment : String) : EnrichmentEntry :=
  let sources := m.enrichment_sources enrichment primary_intents
  if sources ≠ [] then
    { sources := sources, max_confidence := listMax (sources.map (·.score)) }
  else
    -- Enrichment not linked to any primary intent
    { sources := [], max_confidence := 0 }

/-- `validate_classification_result(query, primary_intents, enriched_intents)`. -/
def validate_classification_result (m : IntentConfidenceMapper) (query : String)
    (primary_intents enriched_intents : List String) : ValidationResult :=
  -- Validate primary intents (first for-loop: dict entry, score list,
  -- low-confidence recommendations, in input order)
  let primaryPairs := primary_intents.map
    (fun intent => (intent, m.calculate_primary_intent_confidence query intent))
  let primaryDict := primaryPairs.foldl
    (fun d p => dictInsert d p.1 p.2) []
  let primary_scores := primaryPairs.map (fun p => p.2.1)
  let lowRecs := primaryPairs.filterMap
    (fun p => if p.2.1 < 0.4 then some (Recommendation.lowPrimary p.1 p.2.1) else none)
  -- Validate enrichments: the candidates are the elements of
  -- enriched_intents not occurring in primary_intents (list
  -- comprehension: order and multiplicity preserved)
  let enrichment_intents := enriched_intents.filter
    (fun e => !primary_intents.contains e)
  let enrichDict := enrichment_intents.foldl
    (fun d e => dictInsert d e (m.enrichmentEntryFor primary_intents e)) []
  let enrichment_scores := enrichment_intents.flatMap
    (fun e => (m.enrichment_sources e primary_intents).map (·.score))
  let unlinkedRecs := enrichment_intents.filterMap
    (fun e =>
      if m.enrichment_sources e primary_intents = [] then
        some (Recommendation.unlinkedEnrichment e)
      else none)
  -- Calculate overall confidence
  let primary_confidence : ℚ :=
    if primary_scores ≠ [] then primary_scores.sum / (primary_scores.length : ℚ) else 0
  let enrichment_confidence : ℚ :=
    if enrichment_scores ≠ [] then enrichment_scores.sum / (enrichment_scores.length : ℚ)
    else 1  -- No enrichments = nothing wrong
  -- Overall confidence is primarily based on primary intents (80% weight)
  let overall_confidence := 0.8 * primary_confidence + 0.2 * enrichment_confidence
  -- Overall recommendation is inserted at position 0, based on PRIMARY confidence
  let overallRec : Recommendation :=
    if primary_confidence ≥ 0.7 then .overallHigh
    else if primary_confidence ≥ 0.4 then .overallMedium
    else .overallLow
  { query := query
    primary_intents := primaryDict
    enrichments := enrichDict
    overall_confidence := overall_confidence
    recommendations := overallRec :: (lowRecs ++ unlinkedRecs)
    primary_confidence := primary_confidence
    enrichment_confidence := enrichment_confidence }

end IntentConfidenceMapper

/-- A small concrete mapper for sanity checks and witnesses: three
intents in two categories, enrichment chain `alpha → beta → gamma`. -/
def sampleMapper : IntentConfidenceMapper where
  intent_categories :=
    [("cat1", ⟨some [("alpha", ⟨some "run now", some ["run now"]⟩),
                     ("beta", ⟨some "check logs", some []⟩)]⟩),
     ("cat2", ⟨some [("gamma", ⟨none, none⟩)]⟩)]
  enrichment_rules := [("alpha", ["beta"]), ("beta", ["gamma"])]

example : (sampleMapper.calculate_enrichment_confidence "alpha" "beta").1 = 1 := by
  with_unfolding_all decide
example : (sampleMapper.calculate_enrichment_confidence "alpha" "gamma").1 = 0.8 := by
  with_unfolding_all decide
example : (sampleMapper.calculate_primary_intent_confidence "run now" "alpha").1 = 1 := by
  with_unfolding_all decide
example :
    (sampleMapper.validate_classification_result "run now" ["alpha"] ["beta"]).overall_confidence
      = 0.8 * 1 + 0.2 * 1 := by
  with_unfolding_all decide

/-!
### Helper lemmas: dicts built by repeated insertion
-/

theorem dictInsert_lookup_same {β : Type} (d : List (String × β)) (k : String) (v : β) :
    (dictInsert d k v).lookup k = some v := by
  induction d with
  | nil => simp [dictInsert]
  | cons p rest ih =>
    by_cases h : p.1 = k
    · simp [dictInsert, h, List.lookup]
    · simp only [dictInsert]
      rw [if_neg h]
      simp [List.lookup, show (k == p.1) = false from by simp [Ne.symm h]] at ih ⊢
      exact ih

theorem dictInsert_lookup_other {β : Type} (d : List (String × β)) (k k' : String) (v : β)
    (h : k' ≠ k) : (dictInsert d k v).lookup k' = d.lookup k' := by
  induction d with
  | nil => simp [dictInsert, List.lookup, show (k' == k) = false from by simp [h]]
  | cons p rest ih =>
    by_cases hpk : p.1 = k
    · subst hpk
      simp [dictInsert, List.lookup, show (k' == p.1) = false from by simp [h]]
    · simp only [dictInsert]
      rw [if_neg hpk]
      by_cases hk' : k' = p.1
      · simp [List.lookup, hk']
      · simp [List.lookup, show (k' == p.1) = false from by simp [hk'], ih]

/-- A dict built by inserting `(x, f x)` for each `x` of `l` over an
initial dict: lookups find `f k` for keys of `l`, and fall through
otherwise. -/
theorem foldl_dictInsert_lookup {β : Type} (f : String → β) (l : List String)
    (d : List (String × β)) (k : String) :
    (l.foldl (fun acc x => dictInsert acc x (f x)) d).lookup k =
      if k ∈ l then some (f k) else d.lookup k := by
  induction l generalizing d with
  | nil => simp
  | cons x rest ih =>
    simp only [List.foldl_cons]
    rw [ih]
    by_cases hmem : k ∈ rest
    · simp [hmem]
    · by_cases hkx : k = x
      · subst hkx
        simp [hmem, dictInsert_lookup_same]
      · simp [hmem, hkx, dictInsert_lookup_other _ _ _ _ hkx]

/-!
### Helper lemmas: the enrichment-source collection loop
-/

namespace IntentConfidenceMapper

theorem enrichment_sources_map_score (m : IntentConfidenceMapper) (e : String)
    (l : List String) :
    (m.enrichment_sources e l).map (·.score) =
      (l.map (fun p => (m.calculate_enrichment_confidence p e).1)).filter
        (fun s => decide (0 < s)) := by
  induction l with
  | nil => simp [enrichment_sources]
  | cons p rest ih =>
    simp only [enrichment_sources, List.map_cons, List.filter_cons]
    by_cases h : (m.calculate_enrichment_confidence p e).1 > 0
    · rw [if_pos h]
      simp only [List.map_cons, ih]
      rw [if_pos (by simpa using h)]
    · rw [if_neg h]
      rw [ih]
      rw [if_neg (by simpa using h)]

theorem enrichment_sources_eq_nil_iff (m : IntentConfidenceMapper) (e : String)
    (l : List String) :
    m.enrichment_sources e l = [] ↔
      ∀ p ∈ l, ¬ (0 < (m.calculate_enrichment_confidence p e).1) := by
  induction l with
  | nil => simp [enrichment_sources]
  | cons p rest ih =>
    simp only [enrichment_sources]
    by_cases h : (m.calculate_enrichment_confidence p e).1 > 0
    · rw [if_pos h]
      simp only [List.mem_cons]
      constructor
      · intro hc; cases hc
      · intro hall
        exact absurd h (hall p (Or.inl rfl))
    · rw [if_neg h]
      rw [ih]
      constructor
      · intro hall q hq
        rcases List.mem_cons.mp hq with rfl | hq'
        · exact h
        · exact hall q hq'
      · intro hall q hq
        exact hall q (List.mem_cons_of_mem _ hq)

end IntentConfidenceMapper

/-!
### Bounds for the SequenceMatcher model

The matching blocks found by `find_longest_match` always lie inside the
current window; hence the total matched size is at most each window
size, and the ratio is in `[0,1]`.
-/

/-- Window invariant for a candidate block `(besti, bestj, bestsize)`. -/
def BInv (alo ahi blo bhi : Nat) (best : Nat × Nat × Nat) : Prop :=
  alo ≤ best.1 ∧ blo ≤ best.2.1 ∧ best.1 + best.2.2 ≤ ahi ∧ best.2.1 + best.2.2 ≤ bhi

/-- Invariant for a `j2len` row map: positive entries sit inside the
`b`-window and are bounded by the distances to both window starts
(`iB` is the bound coming from the `a` side). -/
def JInv (blo bhi iB : Nat) (f : Nat → Nat) : Prop :=
  ∀ j, 0 < f j → blo ≤ j ∧ j < bhi ∧ f j ≤ j + 1 - blo ∧ f j ≤ iB

/-- Updating one entry of a row map preserves its invariant when the
new entry satisfies the required bounds. -/
theorem JInv_update (blo bhi iB : Nat) (f : Nat → Nat) (hf : JInv blo bhi iB f)
    (j k : Nat) (h1 : blo ≤ j) (h2 : j < bhi) (h3 : k ≤ j + 1 - blo) (h4 : k ≤ iB) :
    JInv blo bhi iB (fun x => if x = j then k else f x) := by
  intro x hx
  by_cases hxj : x = j
  · simp only [hxj, if_pos rfl] at hx ⊢
    exact ⟨h1, h2, h3, h4⟩
  · simp only [if_neg hxj] at hx ⊢
    exact hf x hx

theorem flmInnerLoop_inv (i alo ahi blo bhi : Nat) (hi1 : alo ≤ i) (hi2 : i < ahi)
    (j2len : Nat → Nat) (hj : JInv blo bhi (i - alo) j2len) :
    ∀ (js : List Nat) (best : Nat × Nat × Nat) (acc : Nat → Nat),
      (∀ j ∈ js, blo ≤ j ∧ j < bhi) →
      BInv alo ahi blo bhi best →
      JInv blo bhi (i + 1 - alo) acc →
      BInv alo ahi blo bhi (flmInnerLoop i j2len js best acc).1 ∧
      JInv blo bhi (i + 1 - alo) (flmInnerLoop i j2len js best acc).2 := by
  intro js
  induction js with
  | nil =>
    intro best acc _ hb ha
    simpa [flmInnerLoop] using ⟨hb, ha⟩
  | cons j rest ih =>
    intro best acc hjs hb ha
    have hjj : blo ≤ j ∧ j < bhi := hjs j (List.mem_cons_self _ _)
    -- bounds on the new run length k
    have hkb : (if j = 0 then 0 else j2len (j - 1)) + 1 ≤ j + 1 - blo ∧
        (if j = 0 then 0 else j2len (j - 1)) + 1 ≤ i + 1 - alo := by
      by_cases h0 : j = 0
      · rw [if_pos h0]
        omega
      · rw [if_neg h0]
        by_cases ht : 0 < j2len (j - 1)
        · have := hj (j - 1) ht
          omega
        · omega
    simp only [flmInnerLoop]
    apply ih
    · exact fun x hx => hjs x (List.mem_cons_of_mem _ hx)
    · -- the updated best is still inside the window
      by_cases hgt : (if j = 0 then 0 else j2len (j - 1)) + 1 > best.2.2
      · rw [if_pos hgt]
        unfold BInv
        simp only
        omega
      · rw [if_neg hgt]
        exact hb
    · -- the updated row map keeps the invariant
      exact JInv_update blo bhi (i + 1 - alo) acc ha j _ hjj.1 hjj.2 hkb.1 hkb.2

theorem flmOuterLoop_inv (a b pop : List Char) (alo ahi blo bhi : Nat) :
    ∀ (n i0 : Nat) (j2len : Nat → Nat) (best : Nat × Nat × Nat),
      alo ≤ i0 → i0 + n ≤ ahi →
      JInv blo bhi (i0 - alo) j2len →
      BInv alo ahi blo bhi best →
      BInv alo ahi blo bhi
        (flmOuterLoop a b pop blo bhi (List.range' i0 n) j2len best) := by
  intro n
  induction n with
  | zero =>
    intro i0 j2len best _ _ _ hb
    simpa [flmOuterLoop] using hb
  | succ n ih =>
    intro i0 j2len best h1 h2 hj hb
    rw [List.range'_succ]
    simp only [flmOuterLoop]
    have hi2 : i0 < ahi := by omega
    have hmem : ∀ j ∈ (List.range' blo (bhi - blo)).filter
        (fun j => b.getD j ' ' = a.getD i0 ' ' && !pop.contains (b.getD j ' ')),
        blo ≤ j ∧ j < bhi := by
      intro j hjmem
      have := List.mem_range'_1.mp (List.mem_of_mem_filter hjmem)
      omega
    have hstep := flmInnerLoop_inv i0 alo ahi blo bhi h1 hi2 j2len hj _ best (fun _ => 0)
      hmem hb (fun j hj0 => absurd hj0 (by simp))
    exact ih (i0 + 1) _ _ (by omega) (by omega)
      (by
        have := hstep.2
        have heq : i0 + 1 - alo = (i0 + 1) - alo := rfl
        exact heq ▸ this)
      hstep.1

theorem extLeftAux_inv (a b : List Char) (cond : Char → Bool) (alo blo ahi bhi : Nat) :
    ∀ (fuel : Nat) (best : Nat × Nat × Nat),
      BInv alo ahi blo bhi best →
      BInv alo ahi blo bhi (extLeftAux a b cond alo blo fuel best) := by
  intro fuel
  induction fuel with
  | zero => intro best hb; simpa [extLeftAux] using hb
  | succ fuel ih =>
    intro best hb
    obtain ⟨bi, bj, k⟩ := best
    simp only [extLeftAux]
    split
    · rename_i hguard
      simp only [Bool.and_eq_true, decide_eq_true_eq] at hguard
      apply ih
      unfold BInv at hb ⊢
      simp only at hb ⊢
      omega
    · exact hb

theorem extRightAux_inv (a b : List Char) (cond : Char → Bool) (ahi bhi alo blo : Nat) :
    ∀ (fuel : Nat) (best : Nat × Nat × Nat),
      BInv alo ahi blo bhi best →
      BInv alo ahi blo bhi (extRightAux a b cond ahi bhi fuel best) := by
  intro fuel
  induction fuel with
  | zero => intro best hb; simpa [extRightAux] using hb
  | succ fuel ih =>
    intro best hb
    obtain ⟨bi, bj, k⟩ := best
    simp only [extRightAux]
    split
    · rename_i hguard
      simp only [Bool.and_eq_true, decide_eq_true_eq] at hguard
      apply ih
      unfold BInv at hb ⊢
      simp only at hb ⊢
      omega
    · exact hb

/-- Any block returned by `find_longest_match` lies inside the window. -/
theorem find_longest_match_inv (a b pop : List Char) (alo ahi blo bhi : Nat)
    (h1 : alo ≤ ahi) (h2 : blo ≤ bhi) :
    BInv alo ahi blo bhi (find_longest_match a b pop alo ahi blo bhi) := by
  unfold find_longest_match
  apply extRightAux_inv
  apply extLeftAux_inv
  apply extRightAux_inv
  apply extLeftAux_inv
  apply flmOuterLoop_inv a b pop alo ahi blo bhi (ahi - alo) alo _ _ le_rfl (by omega)
  · intro j hj0
    exact absurd hj0 (by simp)
  · exact ⟨le_rfl, le_rfl, by simpa using h1, by simpa using h2⟩

/-- The total size of the matching blocks is bounded by each window size. -/
theorem matchingTotal_le (a b pop : List Char) :
    ∀ (fuel alo ahi blo bhi : Nat), alo ≤ ahi → blo ≤ bhi →
      matchingTotal a b pop fuel alo ahi blo bhi ≤ ahi - alo ∧
      matchingTotal a b pop fuel alo ahi blo bhi ≤ bhi - blo := by
  intro fuel
  induction fuel with
  | zero => intro alo ahi blo bhi _ _; simp [matchingTotal]
  | succ fuel ih =>
    intro alo ahi blo bhi h1 h2
    have hinv := find_longest_match_inv a b pop alo ahi blo bhi h1 h2
    obtain ⟨hb1, hb2, hb3, hb4⟩ := hinv
    simp only [matchingTotal]
    split
    · constructor <;> omega
    · have hL := ih alo (find_longest_match a b pop alo ahi blo bhi).1 blo
        (find_longest_match a b pop alo ahi blo bhi).2.1 hb1 hb2
      have hR := ih ((find_longest_match a b pop alo ahi blo bhi).1 +
          (find_longest_match a b pop alo ahi blo bhi).2.2) ahi
        ((find_longest_match a b pop alo ahi blo bhi).2.1 +
          (find_longest_match a b pop alo ahi blo bhi).2.2) bhi hb3 hb4
      constructor <;> omega

/-- The SequenceMatcher ratio is non-negative. -/
theorem sequence_ratio_nonneg (a b : List Char) : 0 ≤ sequence_ratio a b := by
  unfold sequence_ratio
  split
  · norm_num
  · apply div_nonneg
    · exact mul_nonneg (by norm_num) (Nat.cast_nonneg _)
    · exact add_nonneg (Nat.cast_nonneg _) (Nat.cast_nonneg _)

/-- The SequenceMatcher ratio is at most one. -/
theorem sequence_ratio_le_one (a b : List Char) : sequence_ratio a b ≤ 1 := by
  unfold sequence_ratio
  split
  · norm_num
  · rename_i hne
    have hM := matchingTotal_le a b (popularChars b) (a.length + 1) 0 a.length 0 b.length
      (by omega) (by omega)
    simp only [Nat.sub_zero] at hM
    have hpos : (0 : ℚ) < (a.length : ℚ) + (b.length : ℚ) := by
      have : 0 < a.length + b.length := Nat.pos_of_ne_zero hne
      exact_mod_cast this
    rw [div_le_one hpos]
    have h1 : ((matchingTotal a b (popularChars b) (a.length + 1) 0 a.length 0 b.length : Nat) : ℚ)
        ≤ (a.length : ℚ) := by exact_mod_cast hM.1
    have h2 : ((matchingTotal a b (popularChars b) (a.length + 1) 0 a.length 0 b.length : Nat) : ℚ)
        ≤ (b.length : ℚ) := by exact_mod_cast hM.2
    linarith

/-!
### Bounds for the similarity scorer and the keyword F1 score
-/

/-- `_calculate_text_similarity` stays within `[0,1]`. -/
theorem calculate_text_similarity_mem_unit (text1 text2 : String) :
    0 ≤ calculate_text_similarity text1 text2 ∧ calculate_text_similarity text1 text2 ≤ 1 := by
  unfold calculate_text_similarity
  have hr0 := sequence_ratio_nonneg (pyStrip (pyLower text1)).data (pyStrip (pyLower text2)).data
  have hr1 := sequence_ratio_le_one (pyStrip (pyLower text1)).data (pyStrip (pyLower text2)).data
  dsimp only
  split
  · rename_i hne
    set k1 := (extract_keywords (pyStrip (pyLower text1))).toFinset with hk1
    set k2 := (extract_keywords (pyStrip (pyLower text2))).toFinset with hk2
    have hcardQ : ((k1 ∩ k2).card : ℚ) ≤ (max k1.card k2.card : ℚ) := by
      have hcard : (k1 ∩ k2).card ≤ k1.card := Finset.card_le_card Finset.inter_subset_left
      calc ((k1 ∩ k2).card : ℚ) ≤ (k1.card : ℚ) := by exact_mod_cast hcard
        _ ≤ _ := le_max_left _ _
    have hmaxposQ : (0 : ℚ) < (max k1.card k2.card : ℚ) := by
      have h1 : k1.Nonempty := Finset.nonempty_iff_ne_empty.mpr hne.1
      have h2 : (0 : ℚ) < (k1.card : ℚ) := by exact_mod_cast Finset.card_pos.mpr h1
      exact lt_of_lt_of_le h2 (le_max_left _ _)
    have hov0 : (0 : ℚ) ≤ ((k1 ∩ k2).card : ℚ) / (max k1.card k2.card : ℚ) :=
      div_nonneg (Nat.cast_nonneg _) (le_of_lt hmaxposQ)
    have hov1 : ((k1 ∩ k2).card : ℚ) / (max k1.card k2.card : ℚ) ≤ 1 := by
      rw [div_le_one hmaxposQ]
      exact hcardQ
    constructor <;> nlinarith
  · exact ⟨hr0, hr1⟩

/-- The F1 harmonic-mean expression stays within `[0,1]` for
precision and recall in `[0,1]`. -/
theorem f1_mem_unit (p r : ℚ) (hp0 : 0 ≤ p) (hp1 : p ≤ 1) (hr0 : 0 ≤ r) (hr1 : r ≤ 1) :
    0 ≤ (if p + r > 0 then 2 * (p * r) / (p + r) else 0) ∧
    (if p + r > 0 then 2 * (p * r) / (p + r) else 0) ≤ 1 := by
  split
  · rename_i hpr
    constructor
    · apply div_nonneg
      · nlinarith
      · linarith
    · rw [div_le_one hpr]
      nlinarith
  · norm_num

/-- The running maximum of example similarities stays within `[0,1]`. -/
theorem foldSim_mem_unit (query : String) (l : List String) :
    ∀ acc : ℚ × Option String, 0 ≤ acc.1 → acc.1 ≤ 1 →
      0 ≤ (List.foldl (fun (acc : ℚ × Option String) ex =>
            let similarity := calculate_text_similarity query ex
            if similarity > acc.1 then (similarity, some ex) else acc) acc l).1 ∧
      (List.foldl (fun (acc : ℚ × Option String) ex =>
            let similarity := calculate_text_similarity query ex
            if similarity > acc.1 then (similarity, some ex) else acc) acc l).1 ≤ 1 := by
  induction l with
  | nil =>
    intro acc h0 h1
    simpa using ⟨h0, h1⟩
  | cons e rest ih =>
    intro acc h0 h1
    simp only [List.foldl_cons]
    have hs := calculate_text_similarity_mem_unit query e
    by_cases hgt : calculate_text_similarity query e > acc.1
    · rw [if_pos hgt]
      exact ih _ hs.1 hs.2
    · rw [if_neg hgt]
      exact ih _ h0 h1


namespace IntentConfidenceMapper

/-- The blend identity and component bounds of
`calculate_primary_intent_confidence`: the returned score always equals
`keyword_weight · keyword_match_score + similarity_weight ·
example_similarity_score` as recorded in the details, and both component
scores lie in `[0,1]`. -/
theorem primary_components (m : IntentConfidenceMapper) (query intent : String) :
    (m.calculate_primary_intent_confidence query intent).1 =
        m.keyword_weight *
          (m.calculate_primary_intent_confidence query intent).2.keyword_match_score +
        m.similarity_weight *
          (m.calculate_primary_intent_confidence query intent).2.example_similarity_score ∧
      0 ≤ (m.calculate_primary_intent_confidence query intent).2.keyword_match_score ∧
      (m.calculate_primary_intent_confidence query intent).2.keyword_match_score ≤ 1 ∧
      0 ≤ (m.calculate_primary_intent_confidence query intent).2.example_similarity_score ∧
      (m.calculate_primary_intent_confidence query intent).2.example_similarity_score ≤ 1 := by
  have h : (0 ≤ (m.calculate_primary_intent_confidence query intent).2.keyword_match_score ∧
        (m.calculate_primary_intent_confidence query intent).2.keyword_match_score ≤ 1) ∧
      (0 ≤ (m.calculate_primary_intent_confidence query intent).2.example_similarity_score ∧
        (m.calculate_primary_intent_confidence query intent).2.example_similarity_score ≤ 1) := by
    unfold calculate_primary_intent_confidence
    dsimp only
    split
    · simp
    · rename_i hvalid
      dsimp only
      constructor
      · -- keyword match score bounds
        split
        · rename_i hc
          dsimp only
          have hqne : (extract_keywords query).toFinset ≠ ∅ := hc.2
          have hine : m.keywordsOf intent ≠ ∅ := hc.1
          have hqpos : (0 : ℚ) < ((extract_keywords query).toFinset.card : ℚ) := by
            exact_mod_cast Finset.card_pos.mpr (Finset.nonempty_iff_ne_empty.mpr hqne)
          have hipos : (0 : ℚ) < ((m.keywordsOf intent).card : ℚ) := by
            exact_mod_cast Finset.card_pos.mpr (Finset.nonempty_iff_ne_empty.mpr hine)
          have hsub1 : (((extract_keywords query).toFinset ∩ m.keywordsOf intent).card : ℚ)
              ≤ ((extract_keywords query).toFinset.card : ℚ) := by
            exact_mod_cast Finset.card_le_card Finset.inter_subset_left
          have hsub2 : (((extract_keywords query).toFinset ∩ m.keywordsOf intent).card : ℚ)
              ≤ ((m.keywordsOf intent).card : ℚ) := by
            exact_mod_cast Finset.card_le_card Finset.inter_subset_right
          refine f1_mem_unit _ _ ?_ ?_ ?_ ?_
          · rw [if_pos hqne]
            exact div_nonneg (Nat.cast_nonneg _) (Nat.cast_nonneg _)
          · rw [if_pos hqne, div_le_one hqpos]
            exact hsub1
          · rw [if_pos hine]
            exact div_nonneg (Nat.cast_nonneg _) (Nat.cast_nonneg _)
          · rw [if_pos hine, div_le_one hipos]
            exact hsub2
        · dsimp only
          exact ⟨le_rfl, by norm_num⟩
      · -- example similarity score bounds
        split
        · dsimp only
          exact foldSim_mem_unit query _ _ le_rfl (by norm_num)
        · dsimp only
          exact ⟨le_rfl, by norm_num⟩
  refine ⟨?_, h.1.1, h.1.2, h.2.1, h.2.2⟩
  unfold calculate_primary_intent_confidence
  dsimp only
  split
  · simp
  · rfl

end IntentConfidenceMapper

/-!
### Claim theorems
-/

/-- A mapper configured with keyword and similarity weights 1 and 1
(the constructor accepts any weights; they are not required to sum
to one). -/
def heavyMapper : IntentConfidenceMapper where
  intent_categories := [("cat1", ⟨some [("alpha", ⟨some "", some ["run now"]⟩)]⟩)]
  enrichment_rules := []
  keyword_weight := 1
  similarity_weight := 1

/-- C1, counterexample: `calculate_primary_intent_confidence` does not
clamp.  With weights 1 and 1, a query equal to the single example of a
valid intent scores `1·1 + 1·1 = 2 > 1`, so the score does not lie
within `[0,1]` for every weight configuration. -/
theorem C1_counterexample :
    (heavyMapper.calculate_primary_intent_confidence "run now" "alpha").1 = 2 ∧
    ¬ (heavyMapper.calculate_primary_intent_confidence "run now" "alpha").1 ≤ 1 := by
  with_unfolding_all decide

/-- C1, amended: for every query, intent, and non-negative weight
configuration, the returned score lies within
`[0, keyword_weight + similarity_weight]` — hence within `[0,1]`
whenever the weights sum to at most 1, as the default `0.4`/`0.6` do —
because each component score is individually bounded to `[0,1]` and the
final score is the weighted sum of the two components. -/
theorem C1_amended_score_bounds (m : IntentConfidenceMapper) (query intent : String)
    (hkw : 0 ≤ m.keyword_weight) (hsw : 0 ≤ m.similarity_weight) :
    0 ≤ (m.calculate_primary_intent_confidence query intent).1 ∧
    (m.calculate_primary_intent_confidence query intent).1 ≤
      m.keyword_weight + m.similarity_weight := by
  obtain ⟨hf, h1, h2, h3, h4⟩ := m.primary_components query intent
  rw [hf]
  constructor
  · have hk := mul_nonneg hkw h1
    have hs := mul_nonneg hsw h3
    linarith
  · nlinarith

/-- C1, witness: the amended bound evaluated at the sample mapper
(default weights 0.4 and 0.6). -/
theorem C1_witness :
    0 ≤ sampleMapper.keyword_weight ∧ 0 ≤ sampleMapper.similarity_weight ∧
    0 ≤ (sampleMapper.calculate_primary_intent_confidence "run now" "alpha").1 ∧
    (sampleMapper.calculate_primary_intent_confidence "run now" "alpha").1 ≤
      sampleMapper.keyword_weight + sampleMapper.similarity_weight := by
  refine ⟨by with_unfolding_all decide, by with_unfolding_all decide, ?_, ?_⟩
  · exact (C1_amended_score_bounds sampleMapper "run now" "alpha"
      (by with_unfolding_all decide) (by with_unfolding_all decide)).1
  · exact (C1_amended_score_bounds sampleMapper "run now" "alpha"
      (by with_unfolding_all decide) (by with_unfolding_all decide)).2

/-- C3: an intent name absent from the catalog yields, from
`calculate_primary_intent_confidence`, exactly the zero score with the
untouched zero details and only the explanatory reasoning entry (no
further computation), and an absent enrichment name likewise yields the
zero score with `is_valid_intent = false` from
`calculate_enrichment_confidence`; both functions are total, so neither
call can raise. -/
theorem C3_unknown_intent (m : IntentConfidenceMapper) (query primary name : String)
    (h : name ∉ m.all_valid_intents) :
    m.calculate_primary_intent_confidence query name =
      (0, { intent := name
            is_valid := false
            keyword_match_score := 0
            example_similarity_score := 0
            final_score := 0
            matched_keywords := ∅
            reasoning := [.intentNotFound name] }) ∧
    m.calculate_enrichment_confidence primary name =
      (0, { primary_intent := primary
            enrichment_intent := name
            is_valid_enrichment := false
            is_valid_intent := false
            enrichment_depth := 0
            final_score := 0
            reasoning := [.enrichmentNotFound name] }) := by
  unfold IntentConfidenceMapper.calculate_primary_intent_confidence
    IntentConfidenceMapper.calculate_enrichment_confidence
  rw [if_pos h, if_pos h]
  exact ⟨rfl, rfl⟩

/-- C3, witness: the unknown name `"zeta"` at the sample mapper. -/
theorem C3_witness :
    "zeta" ∉ sampleMapper.all_valid_intents ∧
    (sampleMapper.calculate_primary_intent_confidence "run now" "zeta").1 = 0 ∧
    (sampleMapper.calculate_primary_intent_confidence "run now" "zeta").2.is_valid = false ∧
    (sampleMapper.calculate_enrichment_confidence "alpha" "zeta").1 = 0 ∧
    (sampleMapper.calculate_enrichment_confidence "alpha" "zeta").2.is_valid_intent = false := by
  have hmem : "zeta" ∉ sampleMapper.all_valid_intents := by with_unfolding_all decide
  have h := C3_unknown_intent sampleMapper "run now" "alpha" "zeta" hmem
  refine ⟨hmem, ?_, ?_, ?_, ?_⟩
  · rw [h.1]
  · rw [h.1]
  · rw [h.2]
  · rw [h.2]

/-- C7: the stemmer maps every word of length ≤ 3 to itself, and the
suffix rules applied in order produce the four specified stems. -/
theorem C7_stemmer :
    (∀ w : String, w.length ≤ 3 → simple_stem w = w) ∧
    simple_stem "running" = "run" ∧
    simple_stem "services" = "servic" ∧
    simple_stem "failing" = "fail" ∧
    simple_stem "is" = "is" := by
  refine ⟨?_, by decide, by decide, by decide, by decide⟩
  intro w hw
  unfold simple_stem
  rw [if_pos hw]

/-- C7, witness: the pass-through clause applied at the concrete word `"is"`. -/
theorem C7_witness : simple_stem "is" = "is" :=
  C7_stemmer.1 "is" (by decide)

/-- C2: for a valid enrichment intent, the enrichment score is exactly
1.0 iff the enrichment appears directly in the primary intent's rules
(depth 1); otherwise it is exactly 0.8 iff some direct enrichment's own
rules list it (depth 2, the first such direct enrichment wins and is
the one recorded); otherwise it is exactly 0.0; and the score is always
exactly one of 0.0, 0.8, 1.0. -/
theorem C2_fixed_enrichment_scores (m : IntentConfidenceMapper)
    (primary enrichment : String) (hval : enrichment ∈ m.all_valid_intents) :
    ((m.calculate_enrichment_confidence primary enrichment).1 = 1 ↔
      enrichment ∈ m.rulesOf primary) ∧
    (enrichment ∉ m.rulesOf primary →
      (((m.calculate_enrichment_confidence primary enrichment).1 = 0.8) ↔
        ∃ d ∈ m.rulesOf primary, enrichment ∈ m.rulesOf d)) ∧
    (∀ d, enrichment ∉ m.rulesOf primary →
      (m.rulesOf primary).find? (fun x => (m.rulesOf x).contains enrichment) = some d →
      (m.calculate_enrichment_confidence primary enrichment).2.reasoning =
        [.secondaryRule primary d enrichment]) ∧
    ((m.calculate_enrichment_confidence primary enrichment).1 = 0 ∨
     (m.calculate_enrichment_confidence primary enrichment).1 = 0.8 ∨
     (m.calculate_enrichment_confidence primary enrichment).1 = 1) := by
  unfold IntentConfidenceMapper.calculate_enrichment_confidence
  rw [if_neg (not_not_intro hval)]
  dsimp only
  by_cases hdir : enrichment ∈ m.rulesOf primary
  · rw [if_pos hdir]
    exact ⟨by simp [hdir], fun hc => absurd hdir hc, fun d hc => absurd hdir hc, by simp⟩
  · rw [if_neg hdir]
    rcases hfind : (m.rulesOf primary).find? (fun x => (m.rulesOf x).contains enrichment)
      with _ | d
    · -- no depth-2 match
      rw [List.find?_eq_none] at hfind
      refine ⟨by norm_num [hdir], ?_, ?_, by norm_num⟩
      · intro _
        constructor
        · intro h08
          norm_num at h08
        · rintro ⟨d, hd, hmem⟩
          exact absurd (by simpa using hmem) (hfind d hd)
      · intro d _ hsome
        simp at hsome
    · -- first depth-2 match d
      refine ⟨by norm_num [hdir], ?_, ?_, by norm_num⟩
      · intro _
        constructor
        · intro _
          exact ⟨d, List.mem_of_find?_eq_some hfind, by simpa using List.find?_some hfind⟩
        · intro _
          rfl
      · intro x _ hsome
        cases hsome
        rfl


/-- C2, witness: at the sample mapper, `beta` is valid and is a direct
enrichment of `alpha`, so the score is exactly 1. -/
theorem C2_witness :
    "beta" ∈ sampleMapper.all_valid_intents ∧
    (sampleMapper.calculate_enrichment_confidence "alpha" "beta").1 = 1 := by
  have hval : "beta" ∈ sampleMapper.all_valid_intents := by with_unfolding_all decide
  exact ⟨hval, (C2_fixed_enrichment_scores sampleMapper "alpha" "beta" hval).1.mpr
    (by with_unfolding_all decide)⟩

/-- C10: `calculate_enrichment_confidence` never validates the primary
intent: for every primary string (valid or not) the score is a function
of the enrichment-rule lookups alone, and a primary with no rules entry
yields score 0.0 with the no-rule-path reasoning entry (for any valid
enrichment intent); the function is total, so the call cannot raise. -/
theorem C10_primary_never_validated (m : IntentConfidenceMapper)
    (primary enrichment : String) (hval : enrichment ∈ m.all_valid_intents) :
    ((m.calculate_enrichment_confidence primary enrichment).1 =
      (if enrichment ∈ m.rulesOf primary then 1
       else if ((m.rulesOf primary).find?
           (fun d => (m.rulesOf d).contains enrichment)).isSome then 0.8
       else 0)) ∧
    (m.enrichment_rules.lookup primary = none →
      (m.calculate_enrichment_confidence primary enrichment).1 = 0 ∧
      Reason.noRulePath primary enrichment ∈
        (m.calculate_enrichment_confidence primary enrichment).2.reasoning) := by
  unfold IntentConfidenceMapper.calculate_enrichment_confidence
  rw [if_neg (not_not_intro hval)]
  dsimp only
  have hrules0 : m.enrichment_rules.lookup primary = none → m.rulesOf primary = [] := by
    intro hnone
    unfold IntentConfidenceMapper.rulesOf dictGetD
    rw [hnone]
  constructor
  · by_cases hdir : enrichment ∈ m.rulesOf primary
    · simp [hdir]
    · rw [if_neg hdir, if_neg hdir]
      rcases hfind : (m.rulesOf primary).find?
          (fun d => (m.rulesOf d).contains enrichment) with _ | d
      · simp
      · simp
  · intro hnone
    have hr := hrules0 hnone
    rw [hr]
    simp [List.find?]


/-- C10, witness: the unknown primary `"ghost"` has no rules entry at
the sample mapper; the valid enrichment `"alpha"` scores 0 with the
no-rule-path reasoning. -/
theorem C10_witness :
    "alpha" ∈ sampleMapper.all_valid_intents ∧
    sampleMapper.enrichment_rules.lookup "ghost" = none ∧
    (sampleMapper.calculate_enrichment_confidence "ghost" "alpha").1 = 0 ∧
    Reason.noRulePath "ghost" "alpha" ∈
      (sampleMapper.calculate_enrichment_confidence "ghost" "alpha").2.reasoning := by
  have hval : "alpha" ∈ sampleMapper.all_valid_intents := by with_unfolding_all decide
  have hnone : sampleMapper.enrichment_rules.lookup "ghost" = none := by
    with_unfolding_all decide
  have h := (C10_primary_never_validated sampleMapper "ghost" "alpha" hval).2 hnone
  exact ⟨hval, hnone, h.1, h.2⟩

/-- C5: for a valid intent, when both the query keyword set and the
intent keyword set are non-empty the recorded keyword match score is the
F1 harmonic mean of precision `|matched|/|query keywords|` and recall
`|matched|/|intent keywords|` (zero when precision + recall is zero),
and when either set is empty the keyword component is zero; the
computation is total, so no exception is possible. -/
theorem C5_keyword_f1 (m : IntentConfidenceMapper) (query intent : String)
    (hval : intent ∈ m.all_valid_intents) :
    (((extract_keywords query).toFinset ≠ ∅ ∧ m.keywordsOf intent ≠ ∅) →
      (m.calculate_primary_intent_confidence query intent).2.keyword_match_score =
        (let matched := (extract_keywords query).toFinset ∩ m.keywordsOf intent
         let p : ℚ := (matched.card : ℚ) / ((extract_keywords query).toFinset.card : ℚ)
         let r : ℚ := (matched.card : ℚ) / ((m.keywordsOf intent).card : ℚ)
         if p + r > 0 then 2 * (p * r) / (p + r) else 0)) ∧
    (((extract_keywords query).toFinset = ∅ ∨ m.keywordsOf intent = ∅) →
      (m.calculate_primary_intent_confidence query intent).2.keyword_match_score = 0) := by
  unfold IntentConfidenceMapper.calculate_primary_intent_confidence
  rw [if_neg (not_not_intro hval)]
  dsimp only
  by_cases hc : m.keywordsOf intent ≠ ∅ ∧ (extract_keywords query).toFinset ≠ ∅
  · rw [if_pos hc]
    constructor
    · intro hne
      dsimp only
      rw [if_pos hne.1, if_pos hc.1]
    · intro hemp
      rcases hemp with h | h
      · exact absurd h hc.2
      · exact absurd h hc.1
  · rw [if_neg hc]
    constructor
    · intro hne
      exact absurd ⟨hne.2, hne.1⟩ hc
    · intro _
      rfl

/-- C5, witness: at the sample mapper, both keyword sets for the query
`"run now"` and the intent `"alpha"` are non-empty, and the recorded
keyword match score is the F1 value (here 1). -/
theorem C5_witness :
    "alpha" ∈ sampleMapper.all_valid_intents ∧
    (extract_keywords "run now").toFinset ≠ ∅ ∧
    sampleMapper.keywordsOf "alpha" ≠ ∅ ∧
    (sampleMapper.calculate_primary_intent_confidence "run now" "alpha").2.keyword_match_score =
      (let matched := (extract_keywords "run now").toFinset ∩ sampleMapper.keywordsOf "alpha"
       let p : ℚ := (matched.card : ℚ) / ((extract_keywords "run now").toFinset.card : ℚ)
       let r : ℚ := (matched.card : ℚ) / ((sampleMapper.keywordsOf "alpha").card : ℚ)
       if p + r > 0 then 2 * (p * r) / (p + r) else 0) := by
  have h1 : "alpha" ∈ sampleMapper.all_valid_intents := by with_unfolding_all decide
  have h2 : (extract_keywords "run now").toFinset ≠ ∅ := by with_unfolding_all decide
  have h3 : sampleMapper.keywordsOf "alpha" ≠ ∅ := by with_unfolding_all decide
  exact ⟨h1, h2, h3, (C5_keyword_f1 sampleMapper "run now" "alpha" h1).1 ⟨h2, h3⟩⟩

/-- C6: `text_similarity` always returns a value in `[0,1]`; it equals
`0.7 · sequence_ratio + 0.3 · |k1 ∩ k2| / max(|k1|,|k2|)` of the
lowercased, trimmed strings when both extracted keyword sets are
non-empty, and the sequence ratio alone when either is empty. -/
theorem C6_text_similarity (a b : String) :
    (0 ≤ calculate_text_similarity a b ∧ calculate_text_similarity a b ≤ 1) ∧
    (((extract_keywords (pyStrip (pyLower a))).toFinset ≠ ∅ ∧
        (extract_keywords (pyStrip (pyLower b))).toFinset ≠ ∅) →
      calculate_text_similarity a b =
        0.7 * sequence_ratio (pyStrip (pyLower a)).data (pyStrip (pyLower b)).data +
        0.3 * ((((extract_keywords (pyStrip (pyLower a))).toFinset ∩
                  (extract_keywords (pyStrip (pyLower b))).toFinset).card : ℚ) /
          (max ((extract_keywords (pyStrip (pyLower a))).toFinset.card)
              ((extract_keywords (pyStrip (pyLower b))).toFinset.card) : ℚ))) ∧
    (((extract_keywords (pyStrip (pyLower a))).toFinset = ∅ ∨
        (extract_keywords (pyStrip (pyLower b))).toFinset = ∅) →
      calculate_text_similarity a b =
        sequence_ratio (pyStrip (pyLower a)).data (pyStrip (pyLower b)).data) := by
  refine ⟨calculate_text_similarity_mem_unit a b, ?_, ?_⟩
  · intro hne
    unfold calculate_text_similarity
    dsimp only
    rw [if_pos hne]
  · intro hemp
    unfold calculate_text_similarity
    dsimp only
    rw [if_neg (by tauto)]


/-- C6, witness: the blend identity applied at the concrete pair
`"run now"` / `"run fast"`, whose keyword sets are both non-empty. -/
theorem C6_witness :
    (extract_keywords (pyStrip (pyLower "run now"))).toFinset ≠ ∅ ∧
    (extract_keywords (pyStrip (pyLower "run fast"))).toFinset ≠ ∅ ∧
    calculate_text_similarity "run now" "run fast" =
      0.7 * sequence_ratio (pyStrip (pyLower "run now")).data (pyStrip (pyLower "run fast")).data +
      0.3 * ((((extract_keywords (pyStrip (pyLower "run now"))).toFinset ∩
                (extract_keywords (pyStrip (pyLower "run fast"))).toFinset).card : ℚ) /
        (max ((extract_keywords (pyStrip (pyLower "run now"))).toFinset.card)
            ((extract_keywords (pyStrip (pyLower "run fast"))).toFinset.card) : ℚ)) := by
  have h1 : (extract_keywords (pyStrip (pyLower "run now"))).toFinset ≠ ∅ := by
    with_unfolding_all decide
  have h2 : (extract_keywords (pyStrip (pyLower "run fast"))).toFinset ≠ ∅ := by
    with_unfolding_all decide
  exact ⟨h1, h2, (C6_text_similarity "run now" "run fast").2.1 ⟨h1, h2⟩⟩

namespace IntentConfidenceMapper

/-- The primary confidence of `validate_classification_result` is the
arithmetic mean of the per-occurrence primary scores, or 0 for an empty
primary list. -/
theorem validate_primary_confidence_eq (m : IntentConfidenceMapper) (query : String)
    (pis eis : List String) :
    (m.validate_classification_result query pis eis).primary_confidence =
      if pis = [] then 0
      else (pis.map (fun i => (m.calculate_primary_intent_confidence query i).1)).sum /
        (pis.length : ℚ) := by
  unfold validate_classification_result
  dsimp only
  rw [List.map_map]
  by_cases hp : pis = []
  · subst hp
    simp
  · rw [if_neg hp, if_pos (by simpa using hp)]
    rw [List.length_map]
    rfl

/-- The enrichment confidence of `validate_classification_result` is the
arithmetic mean of the positive enrichment source scores collected over
all candidates (in order), or 1 when none were collected. -/
theorem validate_enrichment_confidence_eq (m : IntentConfidenceMapper) (query : String)
    (pis eis : List String) :
    (m.validate_classification_result query pis eis).enrichment_confidence =
      (if ((eis.filter (fun e => !pis.contains e)).flatMap
            (fun e => (pis.map (fun p => (m.calculate_enrichment_confidence p e).1)).filter
              (fun s => decide (0 < s)))) = [] then 1
       else ((eis.filter (fun e => !pis.contains e)).flatMap
            (fun e => (pis.map (fun p => (m.calculate_enrichment_confidence p e).1)).filter
              (fun s => decide (0 < s)))).sum /
         (((eis.filter (fun e => !pis.contains e)).flatMap
            (fun e => (pis.map (fun p => (m.calculate_enrichment_confidence p e).1)).filter
              (fun s => decide (0 < s)))).length : ℚ)) := by
  unfold validate_classification_result
  dsimp only
  simp only [enrichment_sources_map_score]
  by_cases he : ((eis.filter (fun e => !pis.contains e)).flatMap
      (fun e => (pis.map (fun p => (m.calculate_enrichment_confidence p e).1)).filter
        (fun s => decide (0 < s)))) = []
  · rw [if_pos he, if_neg (by simpa using he)]
  · rw [if_neg he, if_pos (by simpa using he)]

/-- The overall confidence is the fixed `0.8 / 0.2` blend. -/
theorem validate_overall_eq (m : IntentConfidenceMapper) (query : String)
    (pis eis : List String) :
    (m.validate_classification_result query pis eis).overall_confidence =
      0.8 * (m.validate_classification_result query pis eis).primary_confidence +
      0.2 * (m.validate_classification_result query pis eis).enrichment_confidence := by
  unfold validate_classification_result
  dsimp only

end IntentConfidenceMapper

/-- C4: `validate_classification_result` aggregates as specified:
`primary_confidence` is the mean of the per-intent primary scores (0.0
for an empty primary list, with no division failure since the division
is guarded); `enrichment_confidence` is the mean of all positive
enrichment source scores collected across all candidates, defaulting to
1.0 when none were collected; `overall_confidence` is
`0.8·primary + 0.2·enrichment`, hence `0.2·enrichment` when the primary
list is empty. -/
theorem C4_confidence_aggregation (m : IntentConfidenceMapper) (query : String)
    (pis eis : List String) :
    ((m.validate_classification_result query pis eis).primary_confidence =
      if pis = [] then 0
      else (pis.map (fun i => (m.calculate_primary_intent_confidence query i).1)).sum /
        (pis.length : ℚ)) ∧
    ((m.validate_classification_result query pis eis).enrichment_confidence =
      (if ((eis.filter (fun e => !pis.contains e)).flatMap
            (fun e => (pis.map (fun p => (m.calculate_enrichment_confidence p e).1)).filter
              (fun s => decide (0 < s)))) = [] then 1
       else ((eis.filter (fun e => !pis.contains e)).flatMap
            (fun e => (pis.map (fun p => (m.calculate_enrichment_confidence p e).1)).filter
              (fun s => decide (0 < s)))).sum /
         (((eis.filter (fun e => !pis.contains e)).flatMap
            (fun e => (pis.map (fun p => (m.calculate_enrichment_confidence p e).1)).filter
              (fun s => decide (0 < s)))).length : ℚ))) ∧
    ((m.validate_classification_result query pis eis).overall_confidence =
      0.8 * (m.validate_classification_result query pis eis).primary_confidence +
      0.2 * (m.validate_classification_result query pis eis).enrichment_confidence) ∧
    (pis = [] →
      (m.validate_classification_result query pis eis).overall_confidence =
        0.2 * (m.validate_classification_result query pis eis).enrichment_confidence) := by
  refine ⟨m.validate_primary_confidence_eq query pis eis,
    m.validate_enrichment_confidence_eq query pis eis,
    m.validate_overall_eq query pis eis, ?_⟩
  intro hp
  rw [m.validate_overall_eq query pis eis, m.validate_primary_confidence_eq query pis eis,
    if_pos hp]
  ring

/-- C4, witness: the degenerate empty classification at the sample
mapper: no division-by-zero, and the overall confidence collapses to
`0.2 · enrichment_confidence`. -/
theorem C4_witness :
    (sampleMapper.validate_classification_result "run now" [] []).primary_confidence = 0 ∧
    (sampleMapper.validate_classification_result "run now" [] []).overall_confidence =
      0.2 * (sampleMapper.validate_classification_result "run now" [] []).enrichment_confidence := by
  constructor
  · rw [(C4_confidence_aggregation sampleMapper "run now" [] []).1]
    rfl
  · exact (C4_confidence_aggregation sampleMapper "run now" [] []).2.2.2 rfl



namespace IntentConfidenceMapper

/-- Counting the low-confidence recommendations produced by the primary
loop: one per occurrence of the intent when its score is below 0.4. -/
theorem count_lowPrimary_recs (m : IntentConfidenceMapper) (query : String)
    (pis : List String) (i : String) :
    ((pis.map (fun intent => (intent, m.calculate_primary_intent_confidence query intent))).filterMap
        (fun p => if p.2.1 < 0.4 then some (Recommendation.lowPrimary p.1 p.2.1) else none)).count
      (Recommendation.lowPrimary i (m.calculate_primary_intent_confidence query i).1) =
    if (m.calculate_primary_intent_confidence query i).1 < 0.4 then pis.count i else 0 := by
  induction pis with
  | nil => simp
  | cons x rest ih =>
    simp only [List.map_cons, List.filterMap_cons]
    by_cases hxi : x = i
    · subst hxi
      by_cases hx : (m.calculate_primary_intent_confidence query x).1 < 0.4
      · simp only [if_pos hx, List.count_cons, ih, beq_self_eq_true, if_true,
          List.count_cons_self]
      · simp only [if_neg hx, ih, if_neg hx]
    · have hbeq : (x == i) = false := by
        simp only [beq_eq_false_iff_ne, ne_eq]
        exact hxi
      have hne : (Recommendation.lowPrimary x (m.calculate_primary_intent_confidence query x).1 ==
          Recommendation.lowPrimary i (m.calculate_primary_intent_confidence query i).1) =
            false := by
        simp only [beq_eq_false_iff_ne, ne_eq, Recommendation.lowPrimary.injEq, not_and]
        intro h
        exact absurd h hxi
      by_cases hx : (m.calculate_primary_intent_confidence query x).1 < 0.4
      · simp only [if_pos hx, List.count_cons, ih, hne, hbeq, if_false]
        split <;> simp
      · simp only [if_neg hx, ih, List.count_cons, hbeq, if_false]
        split <;> simp
/-- Counting the unlinked-enrichment recommendations produced by the
enrichment loop: one per occurrence of a candidate with no source. -/
theorem count_unlinked_recs (m : IntentConfidenceMapper) (pis cands : List String)
    (e : String) :
    (cands.filterMap (fun c => if m.enrichment_sources c pis = [] then
        some (Recommendation.unlinkedEnrichment c) else none)).count
      (Recommendation.unlinkedEnrichment e) =
    if m.enrichment_sources e pis = [] then cands.count e else 0 := by
  induction cands with
  | nil => simp
  | cons x rest ih =>
    simp only [List.filterMap_cons]
    by_cases hxe : x = e
    · subst hxe
      by_cases hx : m.enrichment_sources x pis = []
      · simp only [if_pos hx, List.count_cons, ih, if_pos hx, beq_self_eq_true, if_true,
          List.count_cons_self]
      · simp only [if_neg hx, ih, if_neg hx]
    · have hbeq : (x == e) = false := by
        simp only [beq_eq_false_iff_ne, ne_eq]
        exact hxe
      have hne : (Recommendation.unlinkedEnrichment x ==
          Recommendation.unlinkedEnrichment e) = false := by
        simp only [beq_eq_false_iff_ne, ne_eq, Recommendation.unlinkedEnrichment.injEq]
        exact hxe
      by_cases hx : m.enrichment_sources x pis = []
      · simp only [if_pos hx, List.count_cons, ih, hne, hbeq, if_false]
        split <;> simp
      · simp only [if_neg hx, ih, List.count_cons, hbeq, if_false]
        split <;> simp

/-- The enrichment loop never emits low-primary recommendations. -/
theorem count_lowPrimary_in_unlinked (m : IntentConfidenceMapper) (pis cands : List String)
    (i : String) (s : ℚ) :
    (cands.filterMap (fun c => if m.enrichment_sources c pis = [] then
        some (Recommendation.unlinkedEnrichment c) else none)).count
      (Recommendation.lowPrimary i s) = 0 := by
  rw [List.count_eq_zero]
  intro hmem
  rcases List.mem_filterMap.mp hmem with ⟨c, _, hc⟩
  split at hc <;> simp at hc

/-- The primary loop never emits unlinked-enrichment recommendations. -/
theorem count_unlinked_in_lowRecs (m : IntentConfidenceMapper) (query : String)
    (pis : List String) (e : String) :
    ((pis.map (fun intent => (intent, m.calculate_primary_intent_confidence query intent))).filterMap
        (fun p => if p.2.1 < 0.4 then some (Recommendation.lowPrimary p.1 p.2.1) else none)).count
      (Recommendation.unlinkedEnrichment e) = 0 := by
  rw [List.count_eq_zero]
  intro hmem
  rcases List.mem_filterMap.mp hmem with ⟨c, _, hc⟩
  split at hc <;> simp at hc

/-- Dict lookup for the per-primary-intent result entries. -/
theorem primaryDict_lookup (m : IntentConfidenceMapper) (query : String)
    (pis : List String) (i : String) :
    ((pis.map (fun intent => (intent, m.calculate_primary_intent_confidence query intent))).foldl
      (fun d p => dictInsert d p.1 p.2) []).lookup i =
    if i ∈ pis then some (m.calculate_primary_intent_confidence query i) else none := by
  rw [List.foldl_map]
  exact foldl_dictInsert_lookup
    (fun intent => m.calculate_primary_intent_confidence query intent) pis [] i

/-- Dict lookup for the per-candidate enrichment entries. -/
theorem enrichDict_lookup (m : IntentConfidenceMapper) (pis cands : List String)
    (e : String) :
    (cands.foldl (fun d c => dictInsert d c (m.enrichmentEntryFor pis c)) []).lookup e =
    if e ∈ cands then some (m.enrichmentEntryFor pis e) else none :=
  foldl_dictInsert_lookup (fun c => m.enrichmentEntryFor pis c) cands [] e

end IntentConfidenceMapper


/-- The overall recommendation constructor is never a low-primary flag. -/
theorem overallRec_ne_lowPrimary (c1 c2 : Prop) [Decidable c1] [Decidable c2]
    (i : String) (score : ℚ) :
    ((if c1 then Recommendation.overallHigh
      else if c2 then Recommendation.overallMedium else Recommendation.overallLow) ==
      Recommendation.lowPrimary i score) = false := by
  split
  · rfl
  · split <;> rfl

/-- The overall recommendation constructor is never an unlinked-enrichment flag. -/
theorem overallRec_ne_unlinked (c1 c2 : Prop) [Decidable c1] [Decidable c2] (e : String) :
    ((if c1 then Recommendation.overallHigh
      else if c2 then Recommendation.overallMedium else Recommendation.overallLow) ==
      Recommendation.unlinkedEnrichment e) = false := by
  split
  · rfl
  · split <;> rfl

/-- C9: `validate_classification_result` scores every occurrence of the
primary-intent list independently in input order: the primary mean is
taken over the per-occurrence scores (duplicates included), the
per-intent dict records each listed intent's score and details, and one
low-confidence recommendation is appended per occurrence whose score is
below 0.4. -/
theorem C9_primary_iteration (m : IntentConfidenceMapper) (query : String)
    (pis eis : List String) :
    ((m.validate_classification_result query pis eis).primary_confidence =
      if pis = [] then 0
      else (pis.map (fun i => (m.calculate_primary_intent_confidence query i).1)).sum /
        (pis.length : ℚ)) ∧
    (∀ i ∈ pis, ((m.validate_classification_result query pis eis).primary_intents).lookup i =
      some (m.calculate_primary_intent_confidence query i)) ∧
    (∀ i, ((m.validate_classification_result query pis eis).recommendations).count
        (Recommendation.lowPrimary i (m.calculate_primary_intent_confidence query i).1) =
      if (m.calculate_primary_intent_confidence query i).1 < 0.4 then pis.count i else 0) := by
  refine ⟨m.validate_primary_confidence_eq query pis eis, ?_, ?_⟩
  · intro i hi
    unfold IntentConfidenceMapper.validate_classification_result
    dsimp only
    rw [IntentConfidenceMapper.primaryDict_lookup, if_pos hi]
  · intro i
    unfold IntentConfidenceMapper.validate_classification_result
    dsimp only
    rw [List.count_cons, List.count_append, IntentConfidenceMapper.count_lowPrimary_recs,
      IntentConfidenceMapper.count_lowPrimary_in_unlinked, overallRec_ne_lowPrimary]
    simp

/-- C9, witness: the single-intent list `["alpha"]` at the sample
mapper: the result dict records the computed score and details. -/
theorem C9_witness :
    "alpha" ∈ ["alpha"] ∧
    ((sampleMapper.validate_classification_result "run now" ["alpha"] []).primary_intents).lookup
        "alpha" =
      some (sampleMapper.calculate_primary_intent_confidence "run now" "alpha") := by
  refine ⟨by decide, ?_⟩
  exact (C9_primary_iteration sampleMapper "run now" ["alpha"] []).2.1 "alpha" (by decide)

/-- C8, counterexample: enrichment candidates are NOT deduplicated: the
list comprehension keeps every occurrence, so with the duplicated
enriched intent `["alpha", "alpha"]` (not reachable from the primary
`"beta"`), the unlinked-enrichment recommendation is appended twice —
the distinct candidate is evaluated twice, not once. -/
theorem C8_counterexample :
    ((sampleMapper.validate_classification_result "run now" ["beta"]
        ["alpha", "alpha"]).recommendations).count
      (Recommendation.unlinkedEnrichment "alpha") = 2 ∧
    ¬ (((sampleMapper.validate_classification_result "run now" ["beta"]
        ["alpha", "alpha"]).recommendations).count
      (Recommendation.unlinkedEnrichment "alpha") ≤ 1) := by
  with_unfolding_all decide

/-- C8, amended: the evaluated enrichment candidates are exactly the
occurrences of `enriched_intents` that are not in `primary_intents`,
in input order with multiplicity (so intents also listed as primary are
never scored as enrichments, and each distinct candidate is evaluated
once per occurrence); the entry dict holds exactly the candidate names;
and every candidate for which no primary intent yields a positive
enrichment score is recorded with `max_confidence` exactly 0.0 with one
unlinked-enrichment recommendation appended per occurrence. -/
theorem C8_amended_candidates (m : IntentConfidenceMapper) (query : String)
    (pis eis : List String) :
    (∀ e, (∃ v, ((m.validate_classification_result query pis eis).enrichments).lookup e =
        some v) ↔ e ∈ eis.filter (fun x => !pis.contains x)) ∧
    (∀ e ∈ pis, ((m.validate_classification_result query pis eis).enrichments).lookup e =
      none) ∧
    (∀ e ∈ eis.filter (fun x => !pis.contains x), m.enrichment_sources e pis = [] →
      ((m.validate_classification_result query pis eis).enrichments).lookup e =
          some { sources := [], max_confidence := 0 } ∧
        ((m.validate_classification_result query pis eis).recommendations).count
            (Recommendation.unlinkedEnrichment e) =
          (eis.filter (fun x => !pis.contains x)).count e) := by
  have hlookup : ∀ e, ((m.validate_classification_result query pis eis).enrichments).lookup e =
      if e ∈ eis.filter (fun x => !pis.contains x)
      then some (m.enrichmentEntryFor pis e) else none := by
    intro e
    unfold IntentConfidenceMapper.validate_classification_result
    dsimp only
    exact IntentConfidenceMapper.enrichDict_lookup m pis _ e
  refine ⟨?_, ?_, ?_⟩
  · intro e
    rw [hlookup e]
    constructor
    · rintro ⟨v, hv⟩
      by_cases hmem : e ∈ eis.filter (fun x => !pis.contains x)
      · exact hmem
      · rw [if_neg hmem] at hv
        cases hv
    · intro hmem
      exact ⟨_, by rw [if_pos hmem]⟩
  · intro e he
    rw [hlookup e]
    rw [if_neg]
    intro hmem
    have := List.of_mem_filter hmem
    simp at this
    exact this he
  · intro e he hsrc
    constructor
    · rw [hlookup e, if_pos he]
      unfold IntentConfidenceMapper.enrichmentEntryFor
      rw [hsrc]
      simp
    · unfold IntentConfidenceMapper.validate_classification_result
      dsimp only
      rw [List.count_cons, List.count_append, IntentConfidenceMapper.count_unlinked_recs,
        IntentConfidenceMapper.count_unlinked_in_lowRecs, overallRec_ne_unlinked, if_pos hsrc]
      simp

/-- C8, witness: the amended statement at the sample mapper, with the
unlinked candidate `"alpha"` under the primary `"beta"`. -/
theorem C8_witness :
    "alpha" ∈ (["alpha", "alpha"].filter (fun x => !(List.contains ["beta"] x))) ∧
    sampleMapper.enrichment_sources "alpha" ["beta"] = [] ∧
    ((sampleMapper.validate_classification_result "run now" ["beta"]
        ["alpha", "alpha"]).enrichments).lookup "alpha" =
      some { sources := [], max_confidence := 0 } := by
  have h1 : "alpha" ∈ (["alpha", "alpha"].filter (fun x => !(List.contains ["beta"] x))) := by decide
  have h2 : sampleMapper.enrichment_sources "alpha" ["beta"] = [] := by
    with_unfolding_all decide
  exact ⟨h1, h2,
    ((C8_amended_candidates sampleMapper "run now" ["beta"] ["alpha", "alpha"]).2.2
      "alpha" h1 h2).1⟩
